import Mathlib

/-!
Verification of the deep-agent orchestration engine
(`backend/onyx/agents/deep_agent/`): the task graph and readiness
scheduler (`planning.py`), the hierarchical in-memory store
(`memory.py`), the sub-agent manager (`sub_agents.py`) and the
orchestrator task boundary (`core.py`).

Python `str` values are modelled by Lean `String`; character-level
processing (splitting on `/`, decimal parsing) is done on `String.data`
with explicitly defined helpers, because the corresponding Python
operations are specified character by character.  Python `dict`s are
modelled as association lists in insertion order, which is exactly the
iteration order Python guarantees.  `datetime` values are modelled as
natural numbers; `isoformat` / `fromisoformat` become an injective
decimal rendering and its partial inverse, which preserves the two
facts the code relies on: serialisation is lossless and parsing can
fail on malformed text.  Exceptions are modelled with `Option` and
`Except`.
-/

namespace DeepAgent

/-! ## JSON values

Values produced by `json.loads` and consumed by `json.dumps` (external
library functions).  Object fields are kept in insertion order, as
Python dictionaries do. -/

inductive Json where
  | null
  | bool (b : Bool)
  | num (n : Int)
  | str (s : String)
  | arr (elems : List Json)
  | obj (fields : List (String × Json))

/- Structural equality test for JSON values (hand-written because the
type nests lists). -/
mutual

def jsonBeq : Json → Json → Bool
  | .null, .null => true
  | .bool a, .bool b => a == b
  | .num a, .num b => a == b
  | .str a, .str b => a == b
  | .arr xs, .arr ys => jsonBeqList xs ys
  | .obj xs, .obj ys => jsonBeqFields xs ys
  | _, _ => false
termination_by j _ => sizeOf j

def jsonBeqList : List Json → List Json → Bool
  | [], [] => true
  | x :: xs, y :: ys => jsonBeq x y && jsonBeqList xs ys
  | _, _ => false
termination_by l _ => sizeOf l

def jsonBeqFields : List (String × Json) → List (String × Json) → Bool
  | [], [] => true
  | (k1, v1) :: xs, (k2, v2) :: ys => k1 == k2 && jsonBeq v1 v2 && jsonBeqFields xs ys
  | _, _ => false
termination_by l _ => sizeOf l

end

theorem jsonBeqList_iff (xs : List Json)
    (ih : ∀ x ∈ xs, ∀ b, jsonBeq x b = true ↔ x = b) :
    ∀ ys, jsonBeqList xs ys = true ↔ xs = ys := by
  induction xs with
  | nil => intro ys; cases ys <;> simp [jsonBeqList]
  | cons x xs ihl =>
    intro ys
    cases ys with
    | nil => simp [jsonBeqList]
    | cons y ys =>
      have hx := ih x (by simp) y
      have hrest := ihl (fun z hz b => ih z (by simp [hz]) b) ys
      simp [jsonBeqList, hx, hrest]

theorem jsonBeqFields_iff (xs : List (String × Json))
    (ih : ∀ x ∈ xs, ∀ b, jsonBeq x.2 b = true ↔ x.2 = b) :
    ∀ ys, jsonBeqFields xs ys = true ↔ xs = ys := by
  induction xs with
  | nil => intro ys; cases ys <;> simp [jsonBeqFields]
  | cons x xs ihl =>
    intro ys
    cases ys with
    | nil => simp [jsonBeqFields]
    | cons y ys =>
      obtain ⟨k1, v1⟩ := x
      obtain ⟨k2, v2⟩ := y
      have hx := ih (k1, v1) (by simp) v2
      have hrest := ihl (fun z hz b => ih z (by simp [hz]) b) ys
      simp [jsonBeqFields, hx, hrest, and_assoc]

theorem jsonBeq_iff (a : Json) : ∀ b, jsonBeq a b = true ↔ a = b := by
  generalize hn : sizeOf a = n
  induction n using Nat.strong_induction_on generalizing a with
  | _ n ih =>
    subst hn
    cases a with
    | null => intro b; cases b <;> simp [jsonBeq]
    | bool a => intro b; cases b <;> simp [jsonBeq]
    | num a => intro b; cases b <;> simp [jsonBeq]
    | str a => intro b; cases b <;> simp [jsonBeq]
    | arr xs =>
      intro b
      cases b with
      | arr ys =>
        have hlist := jsonBeqList_iff xs
          (fun x hx b => ih (sizeOf x)
            (by have := List.sizeOf_lt_of_mem hx; simp; omega) x rfl b) ys
        simp [jsonBeq, hlist]
      | null => simp [jsonBeq]
      | bool _ => simp [jsonBeq]
      | num _ => simp [jsonBeq]
      | str _ => simp [jsonBeq]
      | obj _ => simp [jsonBeq]
    | obj xs =>
      intro b
      cases b with
      | obj ys =>
        have hfields := jsonBeqFields_iff xs
          (fun x hx b => ih (sizeOf x.2)
            (by
              have h1 := List.sizeOf_lt_of_mem hx
              obtain ⟨xk, xv⟩ := x
              simp at h1 ⊢
              omega) x.2 rfl b) ys
        simp [jsonBeq, hfields]
      | null => simp [jsonBeq]
      | bool _ => simp [jsonBeq]
      | num _ => simp [jsonBeq]
      | str _ => simp [jsonBeq]
      | arr _ => simp [jsonBeq]

instance : DecidableEq Json := fun a b =>
  decidable_of_iff (jsonBeq a b = true) (jsonBeq_iff a b)

/-! ## Python dictionaries

Association lists in insertion order.  `dictGet` is `d.get(k)` /
`d[k]`; `dictInsert` is `d[k] = v` (updates in place, new keys are
appended at the end); `dictRemove` is `del d[k]`. -/

def dictGet {α : Type} (m : List (String × α)) (k : String) : Option α :=
  (m.find? (fun kv => kv.1 == k)).map Prod.snd

def dictInsert {α : Type} (m : List (String × α)) (k : String) (v : α) :
    List (String × α) :=
  if (m.find? (fun kv => kv.1 == k)).isSome then
    m.map (fun kv => if kv.1 == k then (kv.1, v) else kv)
  else
    m ++ [(k, v)]

/-! ## Decimal rendering and parsing of naturals

Used to model Python f-string interpolation of integers
(`f"task_{self.next_id}"`) and, with timestamps modelled as natural
instants, `datetime.isoformat` / `datetime.fromisoformat`: rendering is
total and injective, parsing is its partial inverse and fails on any
string that is not a rendered value. -/

def digitToChar : Nat → Char
  | 0 => '0'
  | 1 => '1'
  | 2 => '2'
  | 3 => '3'
  | 4 => '4'
  | 5 => '5'
  | 6 => '6'
  | 7 => '7'
  | 8 => '8'
  | 9 => '9'
  | _ => '*'

def charToDigit (c : Char) : Option Nat :=
  if 48 ≤ c.toNat ∧ c.toNat ≤ 57 then some (c.toNat - 48) else none

/-- Emits the decimal digits of `n` in front of `acc`; structural on
the fuel argument, which any bound of `n` (such as `n` itself)
saturates, keeping the definition kernel-computable. -/
def toDecimalAux : Nat → Nat → List Char → List Char
  | 0, _, acc => acc
  | _ + 1, 0, acc => acc
  | f + 1, n + 1, acc =>
    toDecimalAux f ((n + 1) / 10) (digitToChar ((n + 1) % 10) :: acc)

/-- Decimal rendering of a natural number. -/
def natToString (n : Nat) : String :=
  if n = 0 then "0" else String.mk (toDecimalAux n n [])

def parseDecimalAux : List Char → Nat → Option Nat
  | [], acc => some acc
  | c :: cs, acc =>
    match charToDigit c with
    | some d => parseDecimalAux cs (acc * 10 + d)
    | none => none

/-- Parses a decimal rendering back; `none` on the empty string or any
non-digit character. -/
def parseNat (s : String) : Option Nat :=
  match s.data with
  | [] => none
  | cs => parseDecimalAux cs 0

/-- `isoformat` of an abstract timestamp. -/
def isoformat (t : Nat) : String := natToString t

/-- `datetime.fromisoformat`, which raises on malformed input. -/
def fromisoformat (s : String) : Option Nat := parseNat s

theorem charToDigit_digitToChar (d : Nat) (h : d < 10) :
    charToDigit (digitToChar d) = some d := by
  interval_cases d <;> rfl

/-- How many decimal digits the rendering emits. -/
def numDigits : Nat → Nat
  | 0 => 0
  | n + 1 => numDigits ((n + 1) / 10) + 1
decreasing_by exact Nat.div_lt_self (Nat.succ_pos n) (by omega)

theorem toDecimalAux_zero (fuel : Nat) (acc : List Char) :
    toDecimalAux fuel 0 acc = acc := by
  cases fuel <;> rfl

theorem parseDecimalAux_toDecimalAux (fuel : Nat) :
    ∀ n, n ≤ fuel → ∀ r acc, parseDecimalAux (toDecimalAux fuel n r) acc =
      parseDecimalAux r (acc * 10 ^ numDigits n + n) := by
  induction fuel with
  | zero =>
    intro n hn r acc
    have : n = 0 := by omega
    subst this
    simp [toDecimalAux, numDigits]
  | succ f ih =>
    intro n hn r acc
    match n with
    | 0 => simp [toDecimalAux, numDigits]
    | m + 1 =>
      rw [toDecimalAux, numDigits]
      have hdiv : (m + 1) / 10 ≤ f := by
        have := Nat.div_lt_self (Nat.succ_pos m) (show 1 < 10 by omega)
        omega
      rw [ih ((m + 1) / 10) hdiv]
      rw [parseDecimalAux, charToDigit_digitToChar _ (Nat.mod_lt _ (by omega))]
      show parseDecimalAux r
          ((acc * 10 ^ numDigits ((m + 1) / 10) + (m + 1) / 10) * 10 + (m + 1) % 10) =
        parseDecimalAux r (acc * 10 ^ (numDigits ((m + 1) / 10) + 1) + (m + 1))
      congr 1
      rw [pow_succ]
      have hmod : 10 * ((m + 1) / 10) + (m + 1) % 10 = m + 1 :=
        Nat.div_add_mod (m + 1) 10
      nlinarith [hmod]

theorem toDecimalAux_eq_nil (fuel : Nat) :
    ∀ n r, toDecimalAux fuel n r = [] → r = [] := by
  induction fuel with
  | zero => intro n r h; exact h
  | succ f ih =>
    intro n r h
    match n with
    | 0 => exact h
    | m + 1 =>
      rw [toDecimalAux] at h
      have := ih ((m + 1) / 10) (digitToChar ((m + 1) % 10) :: r) h
      exact absurd this (by simp)

/-- Round trip: parsing a rendered natural recovers it. -/
theorem parseNat_natToString (n : Nat) : parseNat (natToString n) = some n := by
  by_cases h : n = 0
  · subst h; rfl
  · rw [natToString, if_neg h, parseNat]
    have hne : toDecimalAux n n [] ≠ [] := by
      match n, h with
      | m + 1, _ =>
        rw [toDecimalAux]
        intro hc
        have := toDecimalAux_eq_nil m ((m + 1) / 10)
          (digitToChar ((m + 1) % 10) :: []) hc
        simp at this
    cases hrep : toDecimalAux n n [] with
    | nil => exact absurd hrep hne
    | cons c cs =>
      show parseDecimalAux (c :: cs) 0 = some n
      rw [← hrep]
      rw [parseDecimalAux_toDecimalAux n n (le_refl n) [] 0]
      simp [parseDecimalAux]

theorem fromisoformat_isoformat (t : Nat) :
    fromisoformat (isoformat t) = some t :=
  parseNat_natToString t

/-! ## Path resolution (`memory.py`, `VirtualFileSystem._resolve_path`)

The Python code splits on `/`, drops empty and `.` segments, pops one
segment per `..` (no-op when the stack is empty) and rejoins with a
leading `/`.  The split and join are implemented here on character
lists, mirroring `str.split("/")` and `"/".join(...)`. -/

/-- `str.split("/")`: splits on every slash and keeps empty pieces, so
the result is always nonempty. -/
def splitSlash : List Char → List (List Char)
  | [] => [[]]
  | c :: cs =>
    match splitSlash cs with
    | [] => [[]]
    | w :: ws => if c = '/' then [] :: w :: ws else (c :: w) :: ws

/-- `"/".join(parts)`. -/
def joinSlash : List (List Char) → List Char
  | [] => []
  | [w] => w
  | w :: x :: ws => w ++ '/' :: joinSlash (x :: ws)

/-- One iteration of the normalisation loop in `_resolve_path`:
`..` pops the last collected segment (`parts.pop()` guarded by
`if parts:`, hence a no-op on the empty stack), empty and `.` segments
are dropped, every other segment is appended. -/
def normStep (parts : List (List Char)) (part : List Char) : List (List Char) :=
  if part = ['.', '.'] then parts.dropLast
  else if part ≠ [] ∧ part ≠ ['.'] then parts ++ [part]
  else parts

def normalizeParts (l : List (List Char)) : List (List Char) :=
  l.foldl normStep []

/-- `VirtualFileSystem._resolve_path`.  A path that does not start with
`/` is first prefixed with the current directory, then the result is
normalised. -/
def resolve_path (current_directory : String) (path : String) : String :=
  let p := path.data
  let pAbs :=
    if p.head? = some '/' then p
    else if current_directory = "/" then '/' :: p
    else current_directory.data ++ '/' :: p
  let parts := normalizeParts (splitSlash pAbs)
  if parts ≠ [] then String.mk ('/' :: joinSlash parts) else "/"

/-! ### Lemmas about path resolution -/

/-- A segment that can appear in the output of normalisation: nonempty,
not `.`, not `..`, and slash-free. -/
def PlainSeg (w : List Char) : Prop :=
  w ≠ [] ∧ w ≠ ['.'] ∧ w ≠ ['.', '.'] ∧ '/' ∉ w

theorem splitSlash_ne_nil (l : List Char) : splitSlash l ≠ [] := by
  cases l with
  | nil => simp [splitSlash]
  | cons c cs =>
    simp only [splitSlash]
    cases h : splitSlash cs with
    | nil => simp
    | cons w ws => by_cases hc : c = '/' <;> simp [hc]

theorem splitSlash_no_slash (l : List Char) :
    ∀ w ∈ splitSlash l, '/' ∉ w := by
  induction l with
  | nil => intro w hw; simp [splitSlash] at hw; simp [hw]
  | cons c cs ih =>
    intro w hw
    simp only [splitSlash] at hw
    cases h : splitSlash cs with
    | nil => exact absurd h (splitSlash_ne_nil cs)
    | cons x xs =>
      rw [h] at hw
      by_cases hc : c = '/'
      · simp [hc] at hw
        rcases hw with hw | hw | hw
        · simp [hw]
        · exact ih w (by rw [h]; simp [hw])
        · exact ih w (by rw [h]; simp [hw])
      · simp [hc] at hw
        rcases hw with hw | hw
        · subst hw
          intro hmem
          rcases List.mem_cons.mp hmem with h1 | h1
          · exact hc h1.symm
          · exact ih x (by rw [h]; simp) h1
        · exact ih w (by rw [h]; simp [hw])

theorem normStep_plain (acc : List (List Char)) (part : List Char)
    (hacc : ∀ w ∈ acc, PlainSeg w) (hs : '/' ∉ part) :
    ∀ w ∈ normStep acc part, PlainSeg w := by
  intro w hw
  unfold normStep at hw
  by_cases h2 : part = ['.', '.']
  · simp [h2] at hw
    exact hacc w (List.dropLast_subset _ hw)
  · by_cases h3 : part ≠ [] ∧ part ≠ ['.']
    · simp [h2, h3] at hw
      rcases hw with hw | hw
      · exact hacc w hw
      · subst hw; exact ⟨h3.1, h3.2, h2, hs⟩
    · simp [h2, h3] at hw
      exact hacc w hw

theorem foldl_normStep_plain (l : List (List Char)) :
    ∀ acc, (∀ w ∈ acc, PlainSeg w) → (∀ w ∈ l, '/' ∉ w) →
      ∀ w ∈ l.foldl normStep acc, PlainSeg w := by
  induction l with
  | nil => intro acc hacc _ w hw; exact hacc w hw
  | cons x xs ih =>
    intro acc hacc hl w hw
    simp only [List.foldl_cons] at hw
    exact ih (normStep acc x)
      (normStep_plain acc x hacc (hl x (by simp)))
      (fun v hv => hl v (by simp [hv])) w hw

theorem normalizeParts_plain (l : List Char) :
    ∀ w ∈ normalizeParts (splitSlash l), PlainSeg w :=
  foldl_normStep_plain _ [] (by simp) (splitSlash_no_slash l)

theorem splitSlash_append (w r : List Char) (hw : '/' ∉ w) :
    ∀ x xs, splitSlash r = x :: xs → splitSlash (w ++ r) = (w ++ x) :: xs := by
  induction w with
  | nil => intro x xs h; simpa using h
  | cons c cs ih =>
    intro x xs h
    have hc : c ≠ '/' := fun hc => hw (by simp [hc])
    have hcs : '/' ∉ cs := fun hm => hw (by simp [hm])
    have h2 := ih hcs x xs h
    show splitSlash (c :: (cs ++ r)) = (c :: (cs ++ x)) :: xs
    simp only [splitSlash, h2]
    simp [hc]

theorem splitSlash_joinSlash (ps : List (List Char))
    (h : ∀ w ∈ ps, '/' ∉ w) (hne : ps ≠ []) :
    splitSlash (joinSlash ps) = ps := by
  induction ps with
  | nil => exact absurd rfl hne
  | cons w ws ih =>
    cases ws with
    | nil =>
      have : splitSlash (w ++ []) = (w ++ []) :: [] :=
        splitSlash_append w [] (h w (by simp)) [] [] rfl
      simpa [joinSlash] using this
    | cons x xs =>
      have hrest : splitSlash (joinSlash (x :: xs)) = x :: xs :=
        ih (fun v hv => h v (by simp at hv ⊢; tauto)) (by simp)
      have hslash : splitSlash ('/' :: joinSlash (x :: xs)) =
          [] :: x :: xs := by
        simp [splitSlash, hrest]
      have := splitSlash_append w ('/' :: joinSlash (x :: xs))
        (h w (by simp)) [] (x :: xs) hslash
      simpa [joinSlash] using this

theorem foldl_normStep_app (l : List (List Char)) :
    ∀ acc, (∀ w ∈ l, PlainSeg w) → l.foldl normStep acc = acc ++ l := by
  induction l with
  | nil => intro acc _; simp
  | cons x xs ih =>
    intro acc hl
    have hx := hl x (by simp)
    have hstep : normStep acc x = acc ++ [x] := by
      unfold normStep
      simp [hx.2.2.1, hx.1, hx.2.1]
    simp only [List.foldl_cons, hstep,
      ih (acc ++ [x]) (fun v hv => hl v (by simp [hv]))]
    simp

/-- Normalising a list of plain segments is the identity. -/
theorem normalizeParts_plain_id (l : List (List Char))
    (h : ∀ w ∈ l, PlainSeg w) : normalizeParts l = l := by
  simpa [normalizeParts] using foldl_normStep_app l [] h

theorem resolve_path_starts_with_slash (cwd p : String) :
    (resolve_path cwd p).data.head? = some '/' := by
  unfold resolve_path
  set parts := normalizeParts (splitSlash
    (if p.data.head? = some '/' then p.data
     else if cwd = "/" then '/' :: p.data else cwd.data ++ '/' :: p.data)) with hparts
  by_cases hne : parts ≠ [] <;> simp [hne]

/-- The shape of every `resolve_path` result: either the root path or a
leading slash followed by plain segments joined by slashes. -/
theorem resolve_path_shape (cwd p : String) :
    resolve_path cwd p = "/" ∨
      ∃ ps, ps ≠ [] ∧ (∀ w ∈ ps, PlainSeg w) ∧
        resolve_path cwd p = String.mk ('/' :: joinSlash ps) := by
  unfold resolve_path
  set pAbs := (if p.data.head? = some '/' then p.data
    else if cwd = "/" then '/' :: p.data else cwd.data ++ '/' :: p.data) with hpAbs
  have hplain : ∀ w ∈ normalizeParts (splitSlash pAbs), PlainSeg w :=
    normalizeParts_plain pAbs
  by_cases hne : normalizeParts (splitSlash pAbs) = []
  · left; simp [hne]
  · right; exact ⟨normalizeParts (splitSlash pAbs), hne, hplain, by simp [hne]⟩

theorem resolve_path_root (cwd : String) : resolve_path cwd "/" = "/" := rfl

theorem resolve_path_of_joined (cwd : String) (ps : List (List Char))
    (hne : ps ≠ []) (hplain : ∀ w ∈ ps, PlainSeg w) :
    resolve_path cwd (String.mk ('/' :: joinSlash ps)) =
      String.mk ('/' :: joinSlash ps) := by
  unfold resolve_path
  have hhead : (String.mk ('/' :: joinSlash ps)).data.head? = some '/' := rfl
  simp only [hhead, if_true]
  have hsplit : splitSlash ('/' :: joinSlash ps) = [] :: ps := by
    have hrest : splitSlash (joinSlash ps) = ps :=
      splitSlash_joinSlash ps (fun w hw => (hplain w hw).2.2.2) hne
    cases ps with
    | nil => exact absurd rfl hne
    | cons x xs => simp [splitSlash, hrest]
  have hnorm : normalizeParts ([] :: ps) = ps := by
    have hstep : normStep [] [] = [] := by simp [normStep]
    simp only [normalizeParts, List.foldl_cons, hstep]
    simpa [normalizeParts] using foldl_normStep_app ps [] hplain
  show (let parts := normalizeParts (splitSlash ('/' :: joinSlash ps));
    if parts ≠ [] then String.mk ('/' :: joinSlash parts) else "/") = _
  simp [hsplit, hnorm, hne]

theorem resolve_path_idem (cwd p : String) :
    resolve_path cwd (resolve_path cwd p) = resolve_path cwd p := by
  rcases resolve_path_shape cwd p with h | ⟨ps, hne, hplain, h⟩
  · rw [h]; exact resolve_path_root cwd
  · rw [h]; exact resolve_path_of_joined cwd ps hne hplain

/-! ## Task graph (`planning.py`) -/

inductive TaskStatus where
  | pending
  | in_progress
  | completed
  | blocked
  | cancelled
deriving DecidableEq

inductive TaskPriority where
  | low
  | medium
  | high
  | critical
deriving DecidableEq

/-- The numeric value of each priority (`TaskPriority(Enum)` values). -/
def TaskPriority.val : TaskPriority → Nat
  | .low => 1
  | .medium => 2
  | .high => 3
  | .critical => 4

/-- `TodoItem`.  Timestamps are abstract instants (`Nat`). -/
structure TodoItem where
  id : String
  title : String
  description : Option String := none
  status : TaskStatus := .pending
  priority : TaskPriority := .medium
  dependencies : List String := []
  created_at : Nat := 0
  updated_at : Nat := 0
  completed_at : Option Nat := none
  assigned_to : Option String := none
  notes : List String := []
  metadata : List (String × Json) := []
deriving DecidableEq

/-- `TodoList`: `items` is a dict from task id to item, in insertion
order; ids are assigned sequentially from `next_id`. -/
structure TodoList where
  items : List (String × TodoItem) := []
  next_id : Nat := 1

/-- `TodoList.add_task`: assigns id `task_{next_id}`, increments the
counter, and appends a pending task. -/
def add_task (tl : TodoList) (title : String) (description : Option String)
    (priority : TaskPriority) (dependencies : List String) (now : Nat) :
    TodoItem × TodoList :=
  let task_id := "task_" ++ natToString tl.next_id
  let task : TodoItem :=
    { id := task_id, title := title, description := description,
      priority := priority, dependencies := dependencies,
      created_at := now, updated_at := now }
  (task, { items := dictInsert tl.items task_id task, next_id := tl.next_id + 1 })

/-- `TodoList.update_task_status`: unknown ids are a no-op; setting
`completed` also stamps `completed_at`. -/
def update_task_status (tl : TodoList) (task_id : String)
    (status : TaskStatus) (now : Nat) : TodoList :=
  match dictGet tl.items task_id with
  | none => tl
  | some _ =>
    { tl with items := tl.items.map (fun kv =>
        if kv.1 == task_id then
          (kv.1, { kv.2 with
            status := status,
            updated_at := now,
            completed_at :=
              if status = .completed then some now else kv.2.completed_at })
        else kv) }

/-- `TodoList.add_note_to_task`: appends to the notes log of a known
task; unknown ids are a no-op. -/
def add_note_to_task (tl : TodoList) (task_id : String) (note : String)
    (now : Nat) : TodoList :=
  match dictGet tl.items task_id with
  | none => tl
  | some _ =>
    { tl with items := tl.items.map (fun kv =>
        if kv.1 == task_id then
          (kv.1, { kv.2 with notes := kv.2.notes ++ [note], updated_at := now })
        else kv) }

/-- The dependency check inside `get_ready_tasks`:
`self.items.get(dep_id, <stub with status COMPLETED>).status == COMPLETED`
— a dependency id absent from the items map counts as satisfied
(fail-open). -/
def dependencies_met (items : List (String × TodoItem)) (t : TodoItem) : Bool :=
  t.dependencies.all (fun dep_id =>
    match dictGet items dep_id with
    | none => true
    | some dep => dep.status == .completed)

/-- Stable insertion used to model Python `list.sort(key=priority.value,
reverse=True)`: an element is placed before the first element of
strictly smaller key, after all elements of greater or equal key that
were inserted later in the fold (i.e. occur earlier in the input).
`sortByPriorityDesc` below is a stable sort by priority descending, and
a stable sort with respect to a fixed total preorder is unique, so this
agrees with CPython timsort with `reverse=True` (which the language
documents to be stable). -/
def insertByPriority (t : TodoItem) : List TodoItem → List TodoItem
  | [] => [t]
  | u :: us =>
    if u.priority.val ≤ t.priority.val then t :: u :: us
    else u :: insertByPriority t us

def sortByPriorityDesc (l : List TodoItem) : List TodoItem :=
  l.foldr insertByPriority []

/-- The pre-sort selection in `get_ready_tasks`: pending tasks whose
dependencies are all met, in items (insertion) order. -/
def readySelection (tl : TodoList) : List TodoItem :=
  (tl.items.map Prod.snd).filter
    (fun t => t.status == .pending && dependencies_met tl.items t)

/-- `TodoList.get_ready_tasks`. -/
def get_ready_tasks (tl : TodoList) : List TodoItem :=
  sortByPriorityDesc (readySelection tl)

/-- `TodoList.clear_completed`: removes every completed task from the
items map (order of the remaining entries is preserved, as for Python
`del`). -/
def clear_completed (tl : TodoList) : TodoList :=
  { tl with items := tl.items.filter (fun kv => !(kv.2.status == .completed)) }

/-! ### Lemmas about the scheduler -/

theorem mem_insertByPriority (t u : TodoItem) (l : List TodoItem) :
    u ∈ insertByPriority t l ↔ u = t ∨ u ∈ l := by
  induction l with
  | nil => simp [insertByPriority]
  | cons x xs ih =>
    simp only [insertByPriority]
    by_cases h : x.priority.val ≤ t.priority.val
    · simp [h]
    · simp [h, ih]
      tauto

theorem mem_sortByPriorityDesc (l : List TodoItem) (t : TodoItem) :
    t ∈ sortByPriorityDesc l ↔ t ∈ l := by
  induction l with
  | nil => simp [sortByPriorityDesc]
  | cons x xs ih =>
    simp only [sortByPriorityDesc, List.foldr_cons]
    rw [mem_insertByPriority]
    simp only [sortByPriorityDesc] at ih
    simp [ih]

/-- Characterisation of membership in the ready set. -/
theorem mem_get_ready_tasks (tl : TodoList) (t : TodoItem) :
    t ∈ get_ready_tasks tl ↔
      t ∈ tl.items.map Prod.snd ∧ t.status = .pending ∧
        ∀ dep ∈ t.dependencies,
          dictGet tl.items dep = none ∨
            ∃ u, dictGet tl.items dep = some u ∧ u.status = .completed := by
  rw [get_ready_tasks, mem_sortByPriorityDesc, readySelection, List.mem_filter]
  constructor
  · rintro ⟨hmem, hcond⟩
    simp only [Bool.and_eq_true, beq_iff_eq] at hcond
    refine ⟨hmem, hcond.1, ?_⟩
    intro dep hdep
    have := hcond.2
    rw [dependencies_met, List.all_eq_true] at this
    have hd := this dep hdep
    cases hget : dictGet tl.items dep with
    | none => exact Or.inl rfl
    | some u =>
      right
      refine ⟨u, rfl, ?_⟩
      rw [hget] at hd
      simpa using hd
  · rintro ⟨hmem, hstatus, hdeps⟩
    refine ⟨hmem, ?_⟩
    simp only [Bool.and_eq_true, beq_iff_eq]
    refine ⟨hstatus, ?_⟩
    rw [dependencies_met, List.all_eq_true]
    intro dep hdep
    rcases hdeps dep hdep with h | ⟨u, hu, hcu⟩
    · simp [h]
    · simp [hu, hcu]

theorem insertByPriority_sorted (t : TodoItem) (l : List TodoItem)
    (h : l.Pairwise (fun a b => b.priority.val ≤ a.priority.val)) :
    (insertByPriority t l).Pairwise (fun a b => b.priority.val ≤ a.priority.val) := by
  induction l with
  | nil => simp [insertByPriority]
  | cons x xs ih =>
    simp only [insertByPriority]
    rcases List.pairwise_cons.mp h with ⟨hx, hxs⟩
    by_cases hc : x.priority.val ≤ t.priority.val
    · simp only [hc, if_true]
      refine List.pairwise_cons.mpr ⟨?_, h⟩
      intro b hb
      rcases List.mem_cons.mp hb with rfl | hb
      · exact hc
      · exact le_trans (hx b hb) hc
    · simp only [hc, if_false]
      refine List.pairwise_cons.mpr ⟨?_, ih hxs⟩
      intro b hb
      rcases (mem_insertByPriority t b xs).mp hb with rfl | hb
      · omega
      · exact hx b hb

theorem sortByPriorityDesc_sorted (l : List TodoItem) :
    (sortByPriorityDesc l).Pairwise (fun a b => b.priority.val ≤ a.priority.val) := by
  induction l with
  | nil => simp [sortByPriorityDesc]
  | cons x xs ih => exact insertByPriority_sorted x _ ih

/-- Stability of the insertion: elements of any fixed priority value
appear in the output in the same relative order as in the input. -/
theorem filter_insertByPriority (t : TodoItem) (l : List TodoItem) (v : Nat)
    (hsorted : l.Pairwise (fun a b => b.priority.val ≤ a.priority.val)) :
    (insertByPriority t l).filter (fun u => u.priority.val == v) =
      if t.priority.val == v then
        t :: l.filter (fun u => u.priority.val == v)
      else l.filter (fun u => u.priority.val == v) := by
  induction l with
  | nil => by_cases h : t.priority.val = v <;> simp [insertByPriority, h]
  | cons x xs ih =>
    rcases List.pairwise_cons.mp hsorted with ⟨hx, hxs⟩
    simp only [insertByPriority]
    by_cases hc : x.priority.val ≤ t.priority.val
    · simp [hc, List.filter_cons]
    · -- t goes past x: x.priority.val > t.priority.val, so at most one of
      -- them matches v; commuting them past the filter is harmless.
      simp only [hc, if_false]
      by_cases hxv : x.priority.val = v
      · have htv : ¬ t.priority.val = v := by omega
        simp [List.filter_cons, hxv, htv, ih hxs]
      · simp [List.filter_cons, hxv, ih hxs]

theorem filter_sortByPriorityDesc (l : List TodoItem) (v : Nat) :
    (sortByPriorityDesc l).filter (fun u => u.priority.val == v) =
      l.filter (fun u => u.priority.val == v) := by
  induction l with
  | nil => simp [sortByPriorityDesc]
  | cons x xs ih =>
    have h1 : sortByPriorityDesc (x :: xs) =
        insertByPriority x (sortByPriorityDesc xs) := rfl
    rw [h1, filter_insertByPriority x _ v (sortByPriorityDesc_sorted xs)]
    by_cases h : x.priority.val = v <;> simp [List.filter_cons, h, ih]

theorem priority_beq_val (a b : TaskPriority) : (a == b) = (a.val == b.val) := by
  cases a <;> cases b <;> rfl

/-! ### Fixtures for the scheduler claims -/

/-- A completed prerequisite task. -/
def depTaskC1 : TodoItem := { id := "task_1", title := "prerequisite", status := .completed }

/-- A pending task whose only dependency is `task_1`. -/
def childTaskC1 : TodoItem := { id := "task_2", title := "dependent", dependencies := ["task_1"] }

def tlC1 : TodoList := { items := [("task_1", depTaskC1), ("task_2", childTaskC1)], next_id := 3 }

def taskMedC7 : TodoItem := { id := "task_1", title := "A", priority := .medium }

def taskHighC7 : TodoItem := { id := "task_2", title := "B", priority := .high }

def taskCritC7 : TodoItem := { id := "task_3", title := "C", priority := .critical }

def tlC7 : TodoList :=
  { items := [("task_1", taskMedC7), ("task_2", taskHighC7), ("task_3", taskCritC7)],
    next_id := 4 }

/-! ### Claim theorems for the scheduler -/

/-- C1: `get_ready_tasks()` returns exactly the pending tasks whose
every dependency id is either absent from the items map or refers to a
completed task; consequently it never returns a pending task with a
present, incomplete dependency, and deleting a dependency task from the
graph (here via `clear_completed`) makes a pending dependent that
references only that id ready (fail-open). -/
theorem get_ready_tasks_exactly_satisfied_pending :
    (∀ (tl : TodoList) (t : TodoItem),
      t ∈ get_ready_tasks tl ↔
        t ∈ tl.items.map Prod.snd ∧ t.status = .pending ∧
          ∀ dep ∈ t.dependencies,
            dictGet tl.items dep = none ∨
              ∃ u, dictGet tl.items dep = some u ∧ u.status = .completed) ∧
    dictGet (clear_completed tlC1).items "task_1" = none ∧
    get_ready_tasks (clear_completed tlC1) = [childTaskC1] :=
  ⟨mem_get_ready_tasks, by decide, by decide⟩

/-- C7: ready tasks are ordered by priority descending; tasks of equal
priority keep their relative (insertion) order, stated as: filtering
the sorted output by any fixed priority gives the same list as
filtering the pre-sort selection (which is in items order); and for the
concrete graph with ready tasks of priorities medium, high, critical
(inserted in that order) the result is [critical, high, medium]. -/
theorem get_ready_tasks_priority_order :
    (∀ tl : TodoList,
      (get_ready_tasks tl).Pairwise (fun a b => b.priority.val ≤ a.priority.val)) ∧
    (∀ (tl : TodoList) (p : TaskPriority),
      (get_ready_tasks tl).filter (fun t => t.priority == p) =
        (readySelection tl).filter (fun t => t.priority == p)) ∧
    get_ready_tasks tlC7 = [taskCritC7, taskHighC7, taskMedC7] := by
  refine ⟨fun tl => sortByPriorityDesc_sorted _, fun tl p => ?_, by decide⟩
  have hfun : (fun t : TodoItem => t.priority == p) =
      (fun t : TodoItem => t.priority.val == p.val) :=
    funext fun t => priority_beq_val t.priority p
  rw [hfun]
  exact filter_sortByPriorityDesc (readySelection tl) p.val

/-! ### Claim theorems for path resolution -/

/-- C5: `_resolve_path` is idempotent for every cursor state and every
input string, and its result always begins with a slash. -/
theorem resolve_path_idempotent_and_absolute (cwd p : String) :
    resolve_path cwd (resolve_path cwd p) = resolve_path cwd p ∧
      (resolve_path cwd p).data.head? = some '/' :=
  ⟨resolve_path_idem cwd p, resolve_path_starts_with_slash cwd p⟩

/-- C6: path resolution is total (the model is a total function, as the
Python loop raises nothing), a `..` segment pops exactly one preceding
segment and is a no-op on an empty segment stack, and
`_resolve_path("/../../x") = "/x"` for every cursor state. -/
theorem resolve_path_dotdot_never_escapes_root :
    (∀ parts : List (List Char), normStep parts ['.', '.'] = parts.dropLast) ∧
    normStep [] ['.', '.'] = ([] : List (List Char)) ∧
    (∀ cwd : String, resolve_path cwd "/../../x" = "/x") :=
  ⟨fun parts => by simp [normStep], by simp [normStep], fun cwd => rfl⟩

/-! ## Virtual file system (`memory.py`) -/

instance : BEq Json := ⟨jsonBeq⟩

instance : LawfulBEq Json where
  eq_of_beq h := (jsonBeq_iff _ _).mp h
  rfl := (jsonBeq_iff _ _).mpr rfl

/-- `VirtualFile`.  Timestamps are abstract instants. -/
structure VirtualFile where
  path : String
  content : String
  created_at : Nat
  updated_at : Nat
  metadata : List (String × Json)
deriving DecidableEq

/-- `VirtualDirectory`: named files and named subdirectories, in
insertion order. -/
inductive VirtualDirectory where
  | mk (path : String) (files : List (String × VirtualFile))
      (subdirectories : List (String × VirtualDirectory)) (created_at : Nat)

def VirtualDirectory.path : VirtualDirectory → String
  | .mk p _ _ _ => p

def VirtualDirectory.files : VirtualDirectory → List (String × VirtualFile)
  | .mk _ f _ _ => f

def VirtualDirectory.subdirectories :
    VirtualDirectory → List (String × VirtualDirectory)
  | .mk _ _ s _ => s

def VirtualDirectory.created_at : VirtualDirectory → Nat
  | .mk _ _ _ c => c

structure VirtualFileSystem where
  root : VirtualDirectory
  current_directory : String

/-- `path.strip("/")`. -/
def stripSlashes (l : List Char) : List Char :=
  ((l.dropWhile (fun c => c == '/')).reverse.dropWhile (fun c => c == '/')).reverse

/-- The loop of `_get_directory`: descend one named subdirectory per
part, `None` when a part is missing. -/
def walkDir : VirtualDirectory → List String → Option VirtualDirectory
  | d, [] => some d
  | d, part :: rest =>
    match dictGet d.subdirectories part with
    | some d2 => walkDir d2 rest
    | none => none

/-- `path.strip("/").split("/")` for a resolved path. -/
def pathParts (rp : String) : List String :=
  (splitSlash (stripSlashes rp.data)).map String.mk

/-- `VirtualFileSystem._get_directory`. -/
def get_directory (fs : VirtualFileSystem) (path : String) :
    Option VirtualDirectory :=
  let rp := resolve_path fs.current_directory path
  if rp = "/" then some fs.root
  else walkDir fs.root (pathParts rp)

/-- `VirtualFileSystem._get_parent_and_name`: `none` models the two
`ValueError`s (root has no parent; parent directory does not exist).
Besides the parent directory object the model also returns the parts of
the parent path, which functional updates below use where the Python
code mutates the aliased parent object in place. -/
def get_parent_and_name (fs : VirtualFileSystem) (path : String) :
    Option (VirtualDirectory × List String × String) :=
  let rp := resolve_path fs.current_directory path
  if rp = "/" then none
  else
    let parts := pathParts rp
    match parts.getLast? with
    | none => none
    | some name =>
      match walkDir fs.root parts.dropLast with
      | some parent => some (parent, parts.dropLast, name)
      | none => none

/-- Apply an update to the directory reached by the given parts.
Mirrors Python mutating a directory object aliased into the tree. -/
def updateDirAt : VirtualDirectory → List String →
    (VirtualDirectory → VirtualDirectory) → VirtualDirectory
  | d, [], f => f d
  | d, part :: rest, f =>
    match d with
    | .mk p fls subs c =>
      .mk p fls
        (subs.map (fun kv =>
          if kv.1 == part then (kv.1, updateDirAt kv.2 rest f) else kv)) c
termination_by _ parts _ => parts.length

/-- `VirtualFileSystem.create_directory`: false (with no change) when
the directory already exists or the parent is missing, otherwise
inserts an empty directory under the parent. -/
def create_directory (fs : VirtualFileSystem) (path : String) (now : Nat) :
    Bool × VirtualFileSystem :=
  let rp := resolve_path fs.current_directory path
  if (get_directory fs rp).isSome then (false, fs)
  else
    match get_parent_and_name fs rp with
    | none => (false, fs)
    | some (_, parentParts, name) =>
      let newRoot := updateDirAt fs.root parentParts
        (fun d => match d with
          | .mk p fls subs c =>
            .mk p fls (dictInsert subs name (.mk rp [] [] now)) c)
      (true, { fs with root := newRoot })

/-- `VirtualFileSystem.write_file`: creates or overwrites a leaf,
merging metadata on update and refreshing the updated timestamp; false
when the parent directory does not exist. -/
def write_file (fs : VirtualFileSystem) (path content : String)
    (metadata : Option (List (String × Json))) (now : Nat) :
    Bool × VirtualFileSystem :=
  let rp := resolve_path fs.current_directory path
  match get_parent_and_name fs rp with
  | none => (false, fs)
  | some (parent, parentParts, name) =>
    let mergeMeta := fun (old : List (String × Json)) =>
      match metadata with
      | some md => md.foldl (fun m kv => dictInsert m kv.1 kv.2) old
      | none => old
    let newFile : VirtualFile :=
      match dictGet parent.files name with
      | some file =>
        { file with
            content := content
            updated_at := now
            metadata := mergeMeta file.metadata }
      | none =>
        { path := rp
          content := content
          created_at := now
          updated_at := now
          metadata := metadata.getD [] }
    let newRoot := updateDirAt fs.root parentParts
      (fun d => match d with
        | .mk p fls subs c => .mk p (dictInsert fls name newFile) subs c)
    (true, { fs with root := newRoot })

/-- `VirtualFileSystem.change_directory`: switches the cursor only if
the target directory exists. -/
def change_directory (fs : VirtualFileSystem) (path : String) :
    Bool × VirtualFileSystem :=
  let rp := resolve_path fs.current_directory path
  if (get_directory fs rp).isSome then
    (true, { fs with current_directory := rp })
  else (false, fs)

/-- A fresh `VirtualFileSystem` before `_initialize_default_structure`. -/
def emptyVFS (now : Nat) : VirtualFileSystem :=
  { root := .mk "/" [] [] now, current_directory := "/" }

/-- `VirtualFileSystem.__init__` including
`_initialize_default_structure`. -/
def initialVFS (now : Nat) : VirtualFileSystem :=
  ["/research", "/notes", "/results", "/context", "/subagents", "/temp"].foldl
    (fun fs p => (create_directory fs p now).2) (emptyVFS now)

/-! ### Export and import (`export_to_json` / `import_from_json`)

`json.dumps` and `json.loads` are external library functions that are
mutually inverse on the values involved, so serialisation is modelled
at the level of `Json` values: export produces the `Json` tree that
`json.dumps` would serialise, and import consumes the result of
`json.loads`, with `none` standing for an input string on which
`json.loads` raises. -/

def fileToDict (f : VirtualFile) : Json :=
  Json.obj [("content", Json.str f.content),
    ("created_at", Json.str (isoformat f.created_at)),
    ("updated_at", Json.str (isoformat f.updated_at)),
    ("metadata", Json.obj f.metadata)]

mutual

def dirToDict : VirtualDirectory → Json
  | .mk path files subdirs _ =>
    Json.obj [("path", Json.str path),
      ("files", Json.obj (files.map (fun nf => (nf.1, fileToDict nf.2)))),
      ("subdirectories", Json.obj (encodeSubdirs subdirs))]
termination_by d => sizeOf d

def encodeSubdirs : List (String × VirtualDirectory) → List (String × Json)
  | [] => []
  | (n, d) :: rest => (n, dirToDict d) :: encodeSubdirs rest
termination_by l => sizeOf l

end

/-- `VirtualFileSystem.export_to_json` (up to the external
`json.dumps`).  Directory creation times are not serialised. -/
def export_to_json (fs : VirtualFileSystem) : Json :=
  dirToDict fs.root

/-- Decoding of one serialised file record inside `_dict_to_dir`:
requires `content`, parseable `created_at` / `updated_at`, and a
dictionary `metadata` (defaulting to empty); the reconstructed path is
recomputed from the parent path and the file name. -/
def decodeFile (dirPath name : String) (j : Json) : Except String VirtualFile :=
  match j with
  | Json.obj fields =>
    match dictGet fields "content" with
    | some (Json.str content) =>
      match dictGet fields "created_at" with
      | some (Json.str ca) =>
        match fromisoformat ca with
        | some created =>
          match dictGet fields "updated_at" with
          | some (Json.str ua) =>
            match fromisoformat ua with
            | some updated =>
              match (dictGet fields "metadata").getD (Json.obj []) with
              | Json.obj md =>
                .ok { path := if dirPath = "/" then "/" ++ name else dirPath ++ "/" ++ name,
                      content := content, created_at := created,
                      updated_at := updated, metadata := md }
              | _ => .error "metadata is not an object"
            | none => .error "unparsable updated_at"
          | _ => .error "updated_at missing or not a string"
        | none => .error "unparsable created_at"
      | _ => .error "created_at missing or not a string"
    | _ => .error "content missing or not a string"
  | _ => .error "file entry is not an object"

def decodeFiles (dirPath : String) :
    List (String × Json) → Except String (List (String × VirtualFile))
  | [] => .ok []
  | (n, j) :: rest =>
    match decodeFile dirPath n j with
    | .error e => .error e
    | .ok f =>
      match decodeFiles dirPath rest with
      | .error e => .error e
      | .ok fsr => .ok ((n, f) :: fsr)

theorem one_le_sizeOf_list {α : Type} [SizeOf α] (l : List α) : 1 ≤ sizeOf l := by
  cases l with
  | nil => simp
  | cons a l => simp; omega

theorem sizeOf_dictGet_lt (fields : List (String × Json)) (k : String)
    (v : Json) (h : dictGet fields k = some v) :
    sizeOf v < sizeOf fields := by
  rw [dictGet] at h
  cases hf : fields.find? (fun kv => kv.1 == k) with
  | none => rw [hf] at h; simp at h
  | some kv =>
    rw [hf] at h
    simp at h
    subst h
    have hmem := List.mem_of_find?_eq_some hf
    have hsz := List.sizeOf_lt_of_mem hmem
    obtain ⟨k1, v1⟩ := kv
    simp at hsz ⊢
    omega

theorem sizeOf_getD_obj (fields : List (String × Json)) (k : String)
    (sentries : List (String × Json))
    (h : (dictGet fields k).getD (Json.obj []) = Json.obj sentries) :
    sizeOf sentries < sizeOf (Json.obj fields) := by
  cases hg : dictGet fields k with
  | none =>
    rw [hg] at h
    simp at h
    subst h
    have := one_le_sizeOf_list fields
    simp
    omega
  | some v =>
    rw [hg] at h
    simp at h
    subst h
    have := sizeOf_dictGet_lt fields k _ hg
    simp at this ⊢
    omega

mutual

def dictToDir (now : Nat) (j : Json) : Except String VirtualDirectory :=
  match j with
  | Json.obj fields =>
    match dictGet fields "path" with
    | some (Json.str path) =>
      match (dictGet fields "files").getD (Json.obj []) with
      | Json.obj fentries =>
        match decodeFiles path fentries with
        | .error e => .error e
        | .ok files =>
          match hs : (dictGet fields "subdirectories").getD (Json.obj []) with
          | Json.obj sentries =>
            match decodeSubdirs now sentries with
            | .error e => .error e
            | .ok subdirs => .ok (.mk path files subdirs now)
          | _ => .error "subdirectories is not an object"
      | _ => .error "files is not an object"
    | _ => .error "path missing or not a string"
  | _ => .error "directory entry is not an object"
termination_by sizeOf j
decreasing_by
  exact sizeOf_getD_obj _ _ _ hs

def decodeSubdirs (now : Nat) (l : List (String × Json)) :
    Except String (List (String × VirtualDirectory)) :=
  match l with
  | [] => .ok []
  | (n, j) :: rest =>
    match dictToDir now j with
    | .error e => .error e
    | .ok d =>
      match decodeSubdirs now rest with
      | .error e => .error e
      | .ok ds => .ok ((n, d) :: ds)
termination_by sizeOf l
decreasing_by
  all_goals simp <;> omega

end

/-- `VirtualFileSystem.import_from_json`.  The new tree is fully
constructed before it is assigned to `root`, so any decoding failure
leaves the store exactly as it was (the Python `except` branch only
logs). -/
def import_from_json (fs : VirtualFileSystem) (input : Option Json)
    (now : Nat) : VirtualFileSystem :=
  match input with
  | none => fs
  | some data =>
    match dictToDir now data with
    | .error _ => fs
    | .ok newRoot => { fs with root := newRoot }

/-- The decode half of `import_from_json` in isolation: `none` exactly
when the import would report a failure. -/
def importDecode (now : Nat) (input : Option Json) : Option VirtualDirectory :=
  match input with
  | none => none
  | some j => (dictToDir now j).toOption

/-- What `_dict_to_dir` rebuilds from a serialised file record: content,
timestamps and metadata are preserved, the `path` field is recomputed
from the parent path and the name. -/
def reimportFile (dirPath name : String) (f : VirtualFile) : VirtualFile :=
  { f with path := if dirPath = "/" then "/" ++ name else dirPath ++ "/" ++ name }

/- What a full export→import round trip rebuilds: same directory paths
and names, same file names with preserved content / timestamps /
metadata (and recomputed file path fields), and fresh directory
creation times, which are not serialised. -/
mutual

def reimportDir (now : Nat) : VirtualDirectory → VirtualDirectory
  | .mk p files subdirs _ =>
    .mk p (files.map (fun nf => (nf.1, reimportFile p nf.1 nf.2)))
      (reimportSubdirs now subdirs) now
termination_by d => sizeOf d

def reimportSubdirs (now : Nat) :
    List (String × VirtualDirectory) → List (String × VirtualDirectory)
  | [] => []
  | (n, d) :: rest => (n, reimportDir now d) :: reimportSubdirs now rest
termination_by l => sizeOf l

end

/-- File-record equality in the sense of the round-trip property:
identical content, creation/update timestamps and metadata (the `path`
field and nothing else may differ). -/
def sameFileRecord (f1 f2 : VirtualFile) : Bool :=
  f1.content == f2.content && f1.created_at == f2.created_at &&
    f1.updated_at == f2.updated_at && f1.metadata == f2.metadata

def sameFiles : List (String × VirtualFile) → List (String × VirtualFile) → Bool
  | [], [] => true
  | (n1, f1) :: r1, (n2, f2) :: r2 =>
    n1 == n2 && sameFileRecord f1 f2 && sameFiles r1 r2
  | _, _ => false

/- Tree equality in the sense of the round-trip property: identical
directory structure (paths, file names and subdirectory names, in
order, recursively) with `sameFileRecord`-equal files. -/
mutual

def sameTree : VirtualDirectory → VirtualDirectory → Bool
  | .mk p1 f1 s1 _, .mk p2 f2 s2 _ =>
    p1 == p2 && sameFiles f1 f2 && sameSubdirs s1 s2
termination_by d _ => sizeOf d

def sameSubdirs :
    List (String × VirtualDirectory) → List (String × VirtualDirectory) → Bool
  | [], [] => true
  | (n1, d1) :: r1, (n2, d2) :: r2 =>
    n1 == n2 && sameTree d1 d2 && sameSubdirs r1 r2
  | _, _ => false
termination_by l _ => sizeOf l

end

/-! ### Round-trip lemmas -/

theorem sizeOf_mem_subdirs (p : String) (files : List (String × VirtualFile))
    (subdirs : List (String × VirtualDirectory)) (c : Nat)
    (nd : String × VirtualDirectory) (h : nd ∈ subdirs) :
    sizeOf nd.2 < sizeOf (VirtualDirectory.mk p files subdirs c) := by
  have h1 := List.sizeOf_lt_of_mem h
  obtain ⟨n, d⟩ := nd
  simp at h1 ⊢
  omega

/-- Structural induction for the nested `VirtualDirectory` type. -/
theorem VirtualDirectory.inductionOn {P : VirtualDirectory → Prop}
    (h : ∀ p files subdirs c, (∀ nd ∈ subdirs, P nd.2) →
      P (.mk p files subdirs c)) : ∀ d, P d := by
  intro d
  generalize hn : sizeOf d = n
  induction n using Nat.strong_induction_on generalizing d with
  | _ n ih =>
    subst hn
    match d with
    | .mk p files subdirs c =>
      exact h p files subdirs c (fun nd hm =>
        ih (sizeOf nd.2) (sizeOf_mem_subdirs p files subdirs c nd hm) nd.2 rfl)

theorem decodeFile_fileToDict (dirPath name : String) (f : VirtualFile) :
    decodeFile dirPath name (fileToDict f) =
      .ok (reimportFile dirPath name f) := by
  simp [decodeFile, fileToDict, dictGet, List.find?, fromisoformat_isoformat,
    reimportFile]

theorem decodeFiles_encoded (dirPath : String)
    (files : List (String × VirtualFile)) :
    decodeFiles dirPath (files.map (fun nf => (nf.1, fileToDict nf.2))) =
      .ok (files.map (fun nf => (nf.1, reimportFile dirPath nf.1 nf.2))) := by
  induction files with
  | nil => rfl
  | cons nf rest ih =>
    simp only [List.map_cons, decodeFiles, decodeFile_fileToDict, ih]

theorem dictToDir_dirToDict (now : Nat) : ∀ d : VirtualDirectory,
    dictToDir now (dirToDict d) = .ok (reimportDir now d) := by
  apply VirtualDirectory.inductionOn
  intro p files subdirs c ih
  have hsub : decodeSubdirs now (encodeSubdirs subdirs) =
      .ok (reimportSubdirs now subdirs) := by
    induction subdirs with
    | nil => simp [encodeSubdirs, decodeSubdirs, reimportSubdirs]
    | cons nd rest ihs =>
      obtain ⟨n, d⟩ := nd
      have hd : dictToDir now (dirToDict d) = .ok (reimportDir now d) :=
        ih (n, d) (by simp)
      have hrest := ihs (fun x hx => ih x (by simp [hx]))
      simp only [encodeSubdirs, decodeSubdirs, hd, hrest, reimportSubdirs]
  rw [dirToDict, dictToDir]
  simp [dictGet, List.find?, decodeFiles_encoded, hsub, reimportDir]

theorem beq_self_list_json (m : List (String × Json)) : (m == m) = true := by
  simp

theorem sameFileRecord_reimport (dirPath name : String) (f : VirtualFile) :
    sameFileRecord f (reimportFile dirPath name f) = true := by
  simp [sameFileRecord, reimportFile]

theorem sameFiles_reimport (dirPath : String)
    (files : List (String × VirtualFile)) :
    sameFiles files (files.map (fun nf => (nf.1, reimportFile dirPath nf.1 nf.2))) = true := by
  induction files with
  | nil => rfl
  | cons nf rest ih =>
    obtain ⟨n, f⟩ := nf
    simp only [List.map_cons, sameFiles, sameFileRecord_reimport, ih]
    simp

theorem sameTree_reimport (now : Nat) : ∀ d : VirtualDirectory,
    sameTree d (reimportDir now d) = true := by
  apply VirtualDirectory.inductionOn
  intro p files subdirs c ih
  have hsub : sameSubdirs subdirs (reimportSubdirs now subdirs) = true := by
    induction subdirs with
    | nil => simp [reimportSubdirs, sameSubdirs]
    | cons nd rest ihs =>
      obtain ⟨n, d⟩ := nd
      have hd : sameTree d (reimportDir now d) = true := ih (n, d) (by simp)
      have hrest := ihs (fun x hx => ih x (by simp [hx]))
      simp only [reimportSubdirs, sameSubdirs, hd, hrest]
      simp
  rw [reimportDir, sameTree]
  simp only [sameFiles_reimport, hsub]
  simp

/-! ### Claim theorems for export / import -/

/-- C3: a malformed import (the input is not JSON, i.e. `json.loads`
raises, or decoding the tree fails: a non-object node, missing
`path` / `content` / `created_at` / `updated_at`, a non-string field,
or an unparsable timestamp) leaves the store exactly as it was — the
error is only reported, the live tree is never partially mutated. -/
theorem import_malformed_preserves_state (fs : VirtualFileSystem)
    (input : Option Json) (now : Nat)
    (h : importDecode now input = none) :
    import_from_json fs input now = fs := by
  cases input with
  | none => rfl
  | some j =>
    rw [importDecode] at h
    rw [import_from_json]
    cases hd : dictToDir now j with
    | error e => rfl
    | ok d => rw [hd] at h; simp [Except.toOption] at h

/-- A malformed serialised tree: the file record has no `created_at`. -/
def badImportJson : Json :=
  Json.obj [("path", Json.str "/"),
    ("files", Json.obj [("a.txt", Json.obj [("content", Json.str "x")])]),
    ("subdirectories", Json.obj [])]

/-- Witness for C3 at a concrete malformed input and concrete store. -/
theorem import_malformed_preserves_state_witness :
    importDecode 7 (some badImportJson) = none ∧
      import_from_json (emptyVFS 0) (some badImportJson) 7 = emptyVFS 0 := by
  have h : importDecode 7 (some badImportJson) = none := by
    simp [importDecode, dictToDir, badImportJson, dictGet, List.find?,
      decodeFiles, decodeFile, Except.toOption]
  exact ⟨h, import_malformed_preserves_state (emptyVFS 0) (some badImportJson) 7 h⟩

/-- C4: an export→import round trip succeeds on every store tree and
reproduces a root tree with identical directory structure and, for
every file, identical content, creation/update timestamps and
metadata (`sameTree`); the store after the import is the store with
exactly that reproduced root. -/
theorem export_import_round_trip (fs : VirtualFileSystem) (now : Nat) :
    dictToDir now (export_to_json fs) = .ok (reimportDir now fs.root) ∧
      import_from_json fs (some (export_to_json fs)) now =
        { fs with root := reimportDir now fs.root } ∧
      sameTree fs.root (reimportDir now fs.root) = true := by
  refine ⟨dictToDir_dirToDict now fs.root, ?_, sameTree_reimport now fs.root⟩
  rw [import_from_json, export_to_json, dictToDir_dirToDict now fs.root]

/-- A store whose cursor points at `/notes`, which exists. -/
def fsC10 : VirtualFileSystem :=
  { root := .mk "/" [] [("notes", .mk "/notes" [] [] 0)] 0,
    current_directory := "/notes" }

/-- A well-formed serialised tree containing no `notes` directory. -/
def importC10 : Json :=
  Json.obj [("path", Json.str "/"), ("files", Json.obj []),
    ("subdirectories", Json.obj [])]

/-- C10: `import_from_json` never touches the current-directory cursor,
for any store and any input; in particular, after a successful import
that replaces the root wholesale, the cursor may name a directory that
no longer exists, and relative paths then resolve against that
nonexistent base. -/
theorem import_preserves_cursor :
    (∀ (fs : VirtualFileSystem) (input : Option Json) (now : Nat),
      (import_from_json fs input now).current_directory =
        fs.current_directory) ∧
    (import_from_json fsC10 (some importC10) 5).current_directory = "/notes" ∧
    (get_directory (import_from_json fsC10 (some importC10) 5) "/notes").isSome
      = false ∧
    resolve_path
      (import_from_json fsC10 (some importC10) 5).current_directory "x"
      = "/notes/x" := by
  have hframe : ∀ (fs : VirtualFileSystem) (input : Option Json) (now : Nat),
      (import_from_json fs input now).current_directory =
        fs.current_directory := by
    intro fs input now
    cases input with
    | none => rfl
    | some j =>
      rw [import_from_json]
      cases dictToDir now j <;> rfl
  have himp : import_from_json fsC10 (some importC10) 5 =
      { fsC10 with root := .mk "/" [] [] 5 } := by
    rw [import_from_json]
    have : dictToDir 5 importC10 = .ok (.mk "/" [] [] 5) := by
      simp [dictToDir, importC10, dictGet, List.find?, decodeFiles, decodeSubdirs]
    rw [this]
  refine ⟨hframe, by rw [himp]; rfl, by rw [himp]; rfl, by rw [hframe]; rfl⟩

/-! ## Sub-agent manager (`sub_agents.py`)

Timing uses abstract instants; the float `execution_time` field is
derived data (completion minus start) and is not modelled.  Each
sub-agent execution strategy (`execute_func`, or the default placeholder,
both external interfaces per the contract) is modelled by its outcome:
a function from the agent to a result value or a raised fault. -/

inductive SubAgentStatus where
  | idle
  | running
  | completed
  | failed
  | cancelled
deriving DecidableEq

def SubAgentStatus.value : SubAgentStatus → String
  | .idle => "idle"
  | .running => "running"
  | .completed => "completed"
  | .failed => "failed"
  | .cancelled => "cancelled"

inductive SubAgentType where
  | research
  | analysis
  | synthesis
  | validation
  | custom
deriving DecidableEq

structure SubAgentConfig where
  name : String
  type : SubAgentType
  task_description : String
  objectives : List String
  context : List (String × String)
  max_iterations : Nat := 10
  timeout_seconds : Nat := 300
deriving DecidableEq

structure SubAgent where
  id : String
  config : SubAgentConfig
  status : SubAgentStatus := .idle
  created_at : Nat := 0
  started_at : Option Nat := none
  completed_at : Option Nat := none
  logs : List String := []
  result : Option String := none
  error : Option String := none
  iterations : Nat := 0
  workspace_path : String := ""
deriving DecidableEq

structure SubAgentResult where
  agent_id : String
  status : SubAgentStatus
  result : Option String := none
  error : Option String := none
  iterations : Nat := 0
  logs : List String := []
deriving DecidableEq

structure SubAgentManager where
  filesystem : VirtualFileSystem
  agents : List (String × SubAgent)
  execution_history : List SubAgentResult

/-- Minimal executable model of the external `json.dumps`; structural
on fuel, which `sizeOf` saturates. -/
def jsonDumpAux : Nat → Json → String
  | _, .null => "null"
  | _, .bool b => if b then "true" else "false"
  | _, .num n =>
    if n < 0 then "-" ++ natToString n.natAbs else natToString n.natAbs
  | _, .str s => "\"" ++ s ++ "\""
  | 0, .arr _ => ""
  | fuel + 1, .arr xs =>
    "[" ++ joinComma (xs.map (jsonDumpAux fuel)) ++ "]"
  | 0, .obj _ => ""
  | fuel + 1, .obj fields =>
    "\x7b" ++
      joinComma (fields.map (fun kv => "\"" ++ kv.1 ++ "\": " ++ jsonDumpAux fuel kv.2))
      ++ "\x7d"
where
  joinComma : List String → String
    | [] => ""
    | [s] => s
    | s :: t :: rest => s ++ ", " ++ joinComma (t :: rest)

/- The values serialised in this development (execution summaries and
result records) have nesting depth at most 3, far below the fixed fuel;
no property here depends on the serialised text. -/
def jsonDump (j : Json) : String := jsonDumpAux 32 j

def optStrJson : Option String → Json
  | some s => Json.str s
  | none => Json.null

/-- `SubAgentManager.create_agent` together with `SubAgent.__init__`:
`freshId` stands for the generated `uuid4` (external randomness); the
dedicated workspace directory is created under `/subagents/` and the
idle agent is registered under its id. -/
def create_agent (mgr : SubAgentManager) (freshId : String) (name : String)
    (type : SubAgentType) (task_description : String)
    (objectives : List String) (context : List (String × String))
    (now : Nat) : SubAgent × SubAgentManager :=
  let workspace := "/subagents/" ++ freshId
  let fs2 := (create_directory mgr.filesystem workspace now).2
  let agent : SubAgent :=
    { id := freshId
      config :=
        { name := name, type := type, task_description := task_description,
          objectives := objectives, context := context }
      created_at := now
      workspace_path := workspace }
  (agent,
    { mgr with filesystem := fs2, agents := dictInsert mgr.agents freshId agent })

/-- `SubAgent.execute`: mark running, record start, run the strategy,
mark completed (capturing the result) or failed (capturing the error
string), stamp completion, write the execution summary into the
workspace, and return a result record carrying the agent id. -/
def agent_execute (fs : VirtualFileSystem) (a : SubAgent)
    (strat : SubAgent → Except String String) (now : Nat) :
    SubAgent × SubAgentResult × VirtualFileSystem :=
  let a1 := { a with
    status := .running
    started_at := some now
    logs := a.logs ++
      ["[" ++ isoformat now ++ "] Starting execution: " ++ a.config.task_description] }
  let a2 :=
    match strat a1 with
    | .ok r =>
      { a1 with
        status := .completed
        result := some r
        logs := a1.logs ++ ["[" ++ isoformat now ++ "] Execution completed successfully"] }
    | .error e =>
      { a1 with
        status := .failed
        error := some e
        logs := a1.logs ++ ["[" ++ isoformat now ++ "] Execution failed: " ++ e] }
  let a3 := { a2 with completed_at := some now }
  let summary := Json.obj
    [("agent_id", Json.str a3.id),
     ("task", Json.str a3.config.task_description),
     ("status", Json.str a3.status.value),
     ("result", optStrJson a3.result),
     ("error", optStrJson a3.error),
     ("iterations", Json.num a3.iterations),
     ("logs", Json.arr (a3.logs.map Json.str))]
  let fs2 := (write_file fs (a3.workspace_path ++ "/execution_summary.json")
    (jsonDump summary) none now).2
  let res : SubAgentResult :=
    { agent_id := a3.id, status := a3.status, result := a3.result,
      error := a3.error, iterations := a3.iterations, logs := a3.logs }
  (a3, res, fs2)

/-- `SubAgentManager.execute_agent`: `none` for an unknown id,
otherwise runs the agent and appends the outcome to the execution
history. -/
def execute_agent (mgr : SubAgentManager)
    (strat : SubAgent → Except String String) (now : Nat)
    (agent_id : String) : Option SubAgentResult × SubAgentManager :=
  match dictGet mgr.agents agent_id with
  | none => (none, mgr)
  | some a =>
    let (a2, res, fs2) := agent_execute mgr.filesystem a strat now
    (some res,
      { mgr with
        filesystem := fs2
        agents := dictInsert mgr.agents agent_id a2
        execution_history := mgr.execution_history ++ [res] })

/-- `SubAgentManager.execute_parallel`: builds one task per *known* id
(in input order, unknown ids are skipped with a log line), gathers the
results in task order, and builds the returned dict by zipping the
*full* input id list with those results, keeping pairs whose result is
not `None`. -/
def execute_parallel (mgr : SubAgentManager)
    (strat : SubAgent → Except String String) (now : Nat)
    (agent_ids : List String) :
    List (String × SubAgentResult) × SubAgentManager :=
  let known := agent_ids.filter (fun i => (dictGet mgr.agents i).isSome)
  let step := fun (acc : List (Option SubAgentResult) × SubAgentManager) (i : String) =>
    let (r, m2) := execute_agent acc.2 strat now i
    (acc.1 ++ [r], m2)
  let (results, mgr2) := known.foldl step ([], mgr)
  let pairs := (agent_ids.zip results).filterMap
    (fun ir => ir.2.map (fun r => (ir.1, r)))
  (pairs.foldl (fun m kv => dictInsert m kv.1 kv.2) [], mgr2)

/-- `SubAgentManager.get_active_agents`: agents with status running. -/
def get_active_agents (mgr : SubAgentManager) : List SubAgent :=
  (mgr.agents.map Prod.snd).filter (fun a => a.status == .running)

/-! ### Claim evidence for `execute_parallel` (C2)

`execute_parallel(["ghost", "a1"])` on a manager knowing only `"a1"`
builds one task (for `"a1"`); `zip(agent_ids, results)` then pairs the
unknown id `"ghost"` with the result of agent `"a1"`, so the returned
map binds `"ghost"` to the result of another agent and has no key `"a1"`. -/

def agentC2 : SubAgent :=
  { id := "a1"
    config :=
      { name := "r", type := .research, task_description := "t",
        objectives := [], context := [] }
    workspace_path := "/subagents/a1" }

def mgrC2 : SubAgentManager :=
  { filesystem := initialVFS 0, agents := [("a1", agentC2)],
    execution_history := [] }

/-- C2 counterexample: with known agent `"a1"` and input ids
`["ghost", "a1"]`, the returned map has no key `"a1"`, and binds the
unknown id `"ghost"` to the result of executing agent `"a1"`. -/
theorem execute_parallel_misaligns_mixed_ids :
    dictGet (execute_parallel mgrC2 (fun _ => .ok "done") 1 ["ghost", "a1"]).1 "a1"
      = none ∧
    (dictGet (execute_parallel mgrC2 (fun _ => .ok "done") 1 ["ghost", "a1"]).1 "ghost").map
      SubAgentResult.agent_id = some "a1" := by
  constructor
  · rfl
  · rfl

/-! ## Orchestrator (`core.py`) -/

structure DeepAgentConfig where
  enable_planning : Bool := true
  enable_sub_agents : Bool := true
  enable_memory : Bool := true
  max_sub_agents : Nat := 5
  max_iterations : Nat := 20
  verbose : Bool := false

/-- `DeepAgent._spawn_sub_agent`: refuses (returning `None`, creating
nothing, and logging the warning — the third component records that the
warning was emitted) whenever the number of currently running agents
has reached `max_sub_agents`; otherwise creates a research sub-agent,
executes it, and returns its result payload on completion (persisting a
`final_result.json` record), or `None` on failure. -/
def spawn_sub_agent (cfg : DeepAgentConfig) (mgr : SubAgentManager)
    (freshId : String) (strat : SubAgent → Except String String)
    (now : Nat) (current_iteration : Nat) (task_description : String)
    (objectives : List String) (context : List (String × String)) :
    Option String × SubAgentManager × Bool :=
  if (get_active_agents mgr).length ≥ cfg.max_sub_agents then
    (none, mgr, true)
  else
    let (agent, mgr1) := create_agent mgr freshId
      ("SubAgent_" ++ natToString current_iteration) .research
      task_description objectives context now
    let (res?, mgr2) := execute_agent mgr1 strat now agent.id
    match res? with
    | some res =>
      if res.status == .completed then
        let resJson := Json.obj
          [("agent_id", Json.str res.agent_id),
           ("status", Json.str res.status.value),
           ("result", optStrJson res.result),
           ("error", optStrJson res.error),
           ("iterations", Json.num res.iterations),
           ("logs", Json.arr (res.logs.map Json.str))]
        let fs3 := (write_file mgr2.filesystem
          ("/subagents/" ++ agent.id ++ "/final_result.json")
          (jsonDump resJson) none now).2
        (res.result, { mgr2 with filesystem := fs3 }, false)
      else (none, mgr2, false)
    | none => (none, mgr2, false)

/-- The outcome of the body of the `try` block in
`DeepAgent._execute_task` (delegating to a sub-agent or executing
inline): a possible note to append on success, or the message of a
raised fault.  The execution strategies driving that body are external
interfaces, so the body is modelled by its outcome. -/
inductive StepOutcome where
  | ok (note : Option String)
  | fault (err : String)

/-- `DeepAgent._execute_task`: unknown ids return `False`; otherwise the
task is marked in-progress, the body is run, and on success the note is
appended and the task completed (`True`); a fault is caught at the task
boundary: the task is marked blocked, a note `"Error: <e>"` is appended,
and `False` is returned (nothing is re-raised). -/
def execute_task (tl : TodoList) (task_id : String) (step : StepOutcome)
    (now : Nat) : Bool × TodoList :=
  match dictGet tl.items task_id with
  | none => (false, tl)
  | some _ =>
    let tl1 := update_task_status tl task_id .in_progress now
    match step with
    | .ok note =>
      let tl2 :=
        match note with
        | some n => add_note_to_task tl1 task_id n now
        | none => tl1
      (true, update_task_status tl2 task_id .completed now)
    | .fault e =>
      let tl2 := update_task_status tl1 task_id .blocked now
      (false, add_note_to_task tl2 task_id ("Error: " ++ e) now)

/-- The execution loop of `DeepAgent.process` (phase 2): bounded
iterations; each pulls the highest-priority ready task and executes it;
the loop ends early when nothing is ready, and continues to the next
iteration whether or not the task succeeded. -/
def execution_loop (steps : String → StepOutcome) (now : Nat) :
    Nat → TodoList → TodoList
  | 0, tl => tl
  | n + 1, tl =>
    match (get_ready_tasks tl).head? with
    | none => tl
    | some task => execution_loop steps now n (execute_task tl task.id (steps task.id) now).2

/-! ### Lemmas about task updates -/

theorem dictGet_map_ite {α : Type} (f : α → α) (id : String) :
    ∀ l : List (String × α),
    dictGet (l.map (fun kv => if kv.1 == id then (kv.1, f kv.2) else kv)) id
      = (dictGet l id).map f := by
  intro l
  induction l with
  | nil => rfl
  | cons kv rest ih =>
    obtain ⟨k, v⟩ := kv
    by_cases h : k = id
    · subst h
      simp [dictGet, List.find?]
    · have hb : (k == id) = false := by simp [h]
      simp only [dictGet, List.find?, List.map_cons, hb, Bool.false_eq_true,
        if_false] at ih ⊢
      exact ih

theorem dictGet_update_task_status (tl : TodoList) (id : String)
    (st : TaskStatus) (now : Nat) (t : TodoItem)
    (h : dictGet tl.items id = some t) :
    dictGet (update_task_status tl id st now).items id =
      some { t with
        status := st, updated_at := now,
        completed_at := if st = .completed then some now else t.completed_at } := by
  rw [update_task_status, h]
  have hmap := dictGet_map_ite
    (fun u : TodoItem =>
      { u with
          status := st
          updated_at := now
          completed_at := if st = .completed then some now else u.completed_at })
    id tl.items
  rw [h] at hmap
  exact hmap

theorem dictGet_add_note_to_task (tl : TodoList) (id : String)
    (note : String) (now : Nat) (t : TodoItem)
    (h : dictGet tl.items id = some t) :
    dictGet (add_note_to_task tl id note now).items id =
      some { t with notes := t.notes ++ [note], updated_at := now } := by
  rw [add_note_to_task, h]
  have hmap := dictGet_map_ite
    (fun u : TodoItem => { u with notes := u.notes ++ [note], updated_at := now })
    id tl.items
  rw [h] at hmap
  exact hmap

/-! ### Claim theorems for the orchestrator -/

/-- C8: whenever the number of running sub-agents is at least
`max_sub_agents`, a further create-and-delegate attempt is refused: no
agent is created and nothing else changes (the manager, its registry
and its store are returned untouched), `None` is returned, and the
refusal warning is logged. -/
theorem spawn_sub_agent_refused_at_cap (cfg : DeepAgentConfig)
    (mgr : SubAgentManager) (freshId : String)
    (strat : SubAgent → Except String String) (now current_iteration : Nat)
    (task_description : String) (objectives : List String)
    (context : List (String × String))
    (h : cfg.max_sub_agents ≤ (get_active_agents mgr).length) :
    spawn_sub_agent cfg mgr freshId strat now current_iteration
      task_description objectives context = (none, mgr, true) := by
  rw [spawn_sub_agent, if_pos (by omega)]

def runningAgentC8 : SubAgent :=
  { id := "r1"
    config :=
      { name := "w", type := .research, task_description := "t",
        objectives := [], context := [] }
    status := .running
    workspace_path := "/subagents/r1" }

def mgrC8 : SubAgentManager :=
  { filesystem := initialVFS 0, agents := [("r1", runningAgentC8)],
    execution_history := [] }

/-- Witness for C8: with `max_sub_agents = 1` and one running agent,
the next delegation attempt is refused and the manager is unchanged. -/
theorem spawn_sub_agent_refused_at_cap_witness :
    ({ max_sub_agents := 1 : DeepAgentConfig }).max_sub_agents ≤
        (get_active_agents mgrC8).length ∧
      spawn_sub_agent { max_sub_agents := 1 } mgrC8 "fresh"
        (fun _ => .ok "done") 3 1 "investigate" [] [] = (none, mgrC8, true) :=
  ⟨by decide,
    spawn_sub_agent_refused_at_cap { max_sub_agents := 1 } mgrC8 "fresh"
      (fun _ => .ok "done") 3 1 "investigate" [] [] (by decide)⟩

/-- A high-priority task whose execution will fault. -/
def faultTaskC9 : TodoItem :=
  { id := "task_1", title := "research the topic", priority := .high }

/-- A second, independent ready task. -/
def okTaskC9 : TodoItem := { id := "task_2", title := "summarize" }

def tlC9 : TodoList :=
  { items := [("task_1", faultTaskC9), ("task_2", okTaskC9)], next_id := 3 }

def stepsC9 : String → StepOutcome := fun id =>
  if id == "task_1" then .fault "boom" else .ok (some "Executed at iteration 2")

/-- C9: a fault in the execution body is caught at the task boundary:
`_execute_task` returns `False` instead of re-raising, the task ends
blocked with a note containing the error appended to its log; and the
execution loop then proceeds to the next ready task (the blocked task
is no longer ready), as the concrete two-task run shows: the faulting
task ends blocked, the other completes. -/
theorem execute_task_fault_blocked_and_loop_continues :
    (∀ (tl : TodoList) (id e : String) (now : Nat) (t : TodoItem),
      dictGet tl.items id = some t →
        (execute_task tl id (.fault e) now).1 = false ∧
        ∃ t2, dictGet (execute_task tl id (.fault e) now).2.items id = some t2 ∧
          t2.status = .blocked ∧ t2.notes = t.notes ++ ["Error: " ++ e]) ∧
    (dictGet (execution_loop stepsC9 9 2 tlC9).items "task_1").map TodoItem.status
      = some .blocked ∧
    (dictGet (execution_loop stepsC9 9 2 tlC9).items "task_1").map TodoItem.notes
      = some ["Error: boom"] ∧
    (dictGet (execution_loop stepsC9 9 2 tlC9).items "task_2").map TodoItem.status
      = some .completed := by
  refine ⟨?_, by decide, by decide, by decide⟩
  intro tl id e now t h
  have h1 := dictGet_update_task_status tl id .in_progress now t h
  have h2 := dictGet_update_task_status _ id .blocked now _ h1
  have h3 := dictGet_add_note_to_task _ id ("Error: " ++ e) now _ h2
  have hunfold : execute_task tl id (.fault e) now =
      (false, add_note_to_task
        (update_task_status (update_task_status tl id .in_progress now) id
          .blocked now) id ("Error: " ++ e) now) := by
    rw [execute_task, h]
  rw [hunfold]
  exact ⟨rfl, _, h3, rfl, rfl⟩

/-- Witness for C9 at a concrete graph and fault. -/
theorem execute_task_fault_blocked_witness :
    dictGet tlC9.items "task_1" = some faultTaskC9 ∧
      ((execute_task tlC9 "task_1" (.fault "boom") 9).1 = false ∧
        ∃ t2, dictGet (execute_task tlC9 "task_1" (.fault "boom") 9).2.items "task_1"
            = some t2 ∧
          t2.status = .blocked ∧ t2.notes = faultTaskC9.notes ++ ["Error: " ++ "boom"]) :=
  ⟨by decide,
    execute_task_fault_blocked_and_loop_continues.1 tlC9 "task_1" "boom" 9
      faultTaskC9 (by decide)⟩

end DeepAgent
